import Mathlib

/-!
Verification of the rate-limited request scheduler (`RequestQueue`) and the
timeline reconciliation engine (`ClientBase.populateTimeline` and friends)
of the social-feed ingestion client.

The Lean definitions below are a shallow embedding of the TypeScript source.
Pure computations are Lean functions; the cooperative-async scheduler is
embedded twice, at two levels of abstraction that the theorems relate to the
claims:

* a fuel-indexed drain function `processQueue` that reproduces the worker
  loop's observable trace (promise settlements and backoff sleeps), and
* a small-step transition system `SchedStep` that captures the interleaving
  of `add` invocations with a running worker, for the single-flight claims.

Collaborators that live outside this repository's sources (the runtime's
cache manager, the durable memory store and the `stringToUuid` derivation)
are modelled from the specification's collaborator contracts; each such
definition carries a doc comment starting with `Modelled from the spec:`.
-/

/-! ## RequestQueue: jobs, attempts and the worker loop -/

/-- A queued unit of work, abstracted by its failure behaviour: the
underlying request fails on its first `fails` attempts and then succeeds
with `val`.  `id` identifies the promise returned by `add`. -/
structure Job where
  id : Nat
  fails : Nat
  val : Nat
deriving DecidableEq, Repr

/-- Outcome of invoking the underlying request of `j` after `tried`
previous attempts: an exception (carrying the attempt index) while attempts
remain to fail, the success value afterwards. -/
def attempt (j : Job) (tried : Nat) : Except Nat Nat :=
  if tried < j.fails then Except.error tried else Except.ok j.val

deriving instance DecidableEq for Except

/-- Observable events of the worker loop: a promise returned by `add`
settles (fulfilled or rejected), or the worker sleeps a backoff delay
(milliseconds). -/
inductive Ev where
  | settled (id : Nat) (r : Except Nat Nat)
  | backoff (ms : Nat)
deriving DecidableEq, Repr

/-- Delay, in milliseconds, slept by `RequestQueue.exponentialBackoff`:
`Math.pow(2, retryCount) * 1000`. -/
def exponentialBackoff (retryCount : Nat) : Nat :=
  2 ^ retryCount * 1000

/-- One execution of the closure pushed by `RequestQueue.add`: it runs the
underlying request, resolves the caller's promise on success and rejects it
on failure.  The `catch` block swallows the exception, so the closure's own
promise always fulfils (first component `Except.ok ()`), whatever the
request did. -/
def runWrapped (j : Job) (tried : Nat) : Except Nat Unit × List Ev :=
  match attempt j tried with
  | Except.ok v => (Except.ok (), [Ev.settled j.id (Except.ok v)])
  | Except.error e => (Except.ok (), [Ev.settled j.id (Except.error e)])

/-- One execution of a bare request thunk, the general shape
`RequestQueue.processQueue` is written against: completion publishes the
result, a failure propagates as an exception to the worker loop. -/
def runRaw (j : Job) (tried : Nat) : Except Nat Unit × List Ev :=
  match attempt j tried with
  | Except.ok v => (Except.ok (), [Ev.settled j.id (Except.ok v)])
  | Except.error e => (Except.error e, [])

/-- The worker loop of `RequestQueue.processQueue`, drained with explicit
fuel (the source loop genuinely need not terminate: a forever-failing entry
is retried indefinitely).  Each iteration shifts the head entry and runs it;
if the run throws, the entry is unshifted back to the front and the worker
sleeps `exponentialBackoff(queue.length)` measured after the reinsertion.
The additional randomized pacing delay after every attempt alters neither
the queue nor any promise, so it contributes no event here.  Entries are
paired with their attempt count; the final component is the queue left when
fuel runs out (empty once the loop exits normally). -/
def processQueue (runner : Job → Nat → Except Nat Unit × List Ev) :
    Nat → List (Job × Nat) → List Ev × List (Job × Nat)
  | _, [] => ([], [])
  | 0, q => ([], q)
  | Nat.succ fuel, (j, t) :: rest =>
    let r := runner j t
    match r.1 with
    | Except.ok _ =>
      let next := processQueue runner fuel rest
      (r.2 ++ next.1, next.2)
    | Except.error _ =>
      let q1 := (j, t + 1) :: rest
      let next := processQueue runner fuel q1
      (r.2 ++ Ev.backoff (exponentialBackoff q1.length) :: next.1, next.2)

/-! ## RequestQueue: interleaving machine for the single-flight claims -/

/-- Program counter of one live `processQueue` invocation: between loop
iterations, or awaiting the shifted entry `op`. -/
inductive LoopPC where
  | atTop
  | running (op : Nat)
deriving DecidableEq, Repr

/-- Scheduler state visible across suspension points: the pending queue
(entry identities), the `processing` flag, and the live `processQueue`
invocations that passed the entry guard. -/
structure SchedState where
  queue : List Nat
  processing : Bool
  loops : List LoopPC
deriving DecidableEq, Repr

/-- Effect of `RequestQueue.add`: push the entry, then call `processQueue`,
whose guard returns at once when `processing` is set (the queue is nonempty
after the push); otherwise the flag is raised and a new worker loop starts.
The push, the guard test and the flag write run without any intervening
suspension point, hence as one transition. -/
def enqueue (s : SchedState) (op : Nat) : SchedState :=
  let q := s.queue ++ [op]
  if s.processing then { s with queue := q }
  else { queue := q, processing := true, loops := s.loops ++ [LoopPC.atTop] }

/-- Initial scheduler state: empty queue, idle. -/
def SchedState.init : SchedState := { queue := [], processing := false, loops := [] }

/-- Small-step transitions of the scheduler, from the source: `add`
(lines 65-77), a loop shifting and awaiting the head entry, the awaited
entry finishing normally or by throwing (the latter unshifts it to the
front), and the loop observing an empty queue, clearing `processing` and
returning. -/
inductive SchedStep : SchedState → SchedState → Prop where
  | add (s : SchedState) (op : Nat) : SchedStep s (enqueue s op)
  | take (s : SchedState) (l₁ l₂ : List LoopPC) (x : Nat) (q : List Nat) :
      s.loops = l₁ ++ LoopPC.atTop :: l₂ → s.queue = x :: q →
      SchedStep s { queue := q, processing := s.processing,
                    loops := l₁ ++ LoopPC.running x :: l₂ }
  | finishOk (s : SchedState) (l₁ l₂ : List LoopPC) (x : Nat) :
      s.loops = l₁ ++ LoopPC.running x :: l₂ →
      SchedStep s { s with loops := l₁ ++ LoopPC.atTop :: l₂ }
  | finishErr (s : SchedState) (l₁ l₂ : List LoopPC) (x : Nat) :
      s.loops = l₁ ++ LoopPC.running x :: l₂ →
      SchedStep s { queue := x :: s.queue, processing := s.processing,
                    loops := l₁ ++ LoopPC.atTop :: l₂ }
  | exit (s : SchedState) (l₁ l₂ : List LoopPC) :
      s.loops = l₁ ++ LoopPC.atTop :: l₂ → s.queue = [] →
      SchedStep s { queue := [], processing := false, loops := l₁ ++ l₂ }

/-- States reachable from the initial scheduler state. -/
def SchedReachable (s : SchedState) : Prop :=
  Relation.ReflTransGen SchedStep SchedState.init s

/-- Number of queued operations currently executing (being awaited by some
live worker loop). -/
def inFlight (s : SchedState) : Nat :=
  (s.loops.filter (fun pc => match pc with
    | LoopPC.running _ => true
    | LoopPC.atTop => false)).length

theorem schedInv_step (a b : SchedState) (hab : SchedStep a b)
    (ih : a.loops.length = a.processing.toNat) :
    b.loops.length = b.processing.toNat := by
  cases hab with
  | add op =>
    unfold enqueue
    cases hp : a.processing
    · rw [hp] at ih
      simp only [Bool.toNat_false] at ih
      simp [ih]
    · rw [hp] at ih
      simp only [Bool.toNat_true] at ih
      simp [ih]
  | take l₁ l₂ x q hl hq =>
    rw [hl] at ih
    simp only [List.length_append, List.length_cons] at ih ⊢
    exact ih
  | finishOk l₁ l₂ x hl =>
    rw [hl] at ih
    simp only [List.length_append, List.length_cons] at ih ⊢
    exact ih
  | finishErr l₁ l₂ x hl =>
    rw [hl] at ih
    simp only [List.length_append, List.length_cons] at ih ⊢
    exact ih
  | exit l₁ l₂ hl hq =>
    rw [hl] at ih
    cases hp : a.processing <;> rw [hp] at ih <;>
      simp only [List.length_append, List.length_cons, Bool.toNat_true,
        Bool.toNat_false] at ih ⊢ <;> omega

theorem schedInv (s : SchedState) (h : SchedReachable s) :
    s.loops.length = s.processing.toNat := by
  induction h with
  | refl => rfl
  | tail _ step ih =>
    exact schedInv_step _ _ step ih

/-- C4: in every reachable scheduler state at most one queued operation is
executing (two operations never run concurrently, because at most one
worker loop is ever live, and a live loop awaits one entry at a time); the
number of live worker loops is exactly the `processing` indicator, so the
worker is idle exactly when `processing` is false; an `add` while idle
restarts the worker, and an `add` during processing only appends to the
queue, being absorbed by the running loop. -/
theorem requestQueue_single_flight (s : SchedState) (op : Nat) (h : SchedReachable s) :
    inFlight s ≤ 1 ∧
    s.loops.length = (if s.processing then 1 else 0) ∧
    (s.processing = false →
      enqueue s op = { queue := s.queue ++ [op], processing := true,
                       loops := s.loops ++ [LoopPC.atTop] }) ∧
    (s.processing = true → enqueue s op = { s with queue := s.queue ++ [op] }) := by
  have hinv := schedInv s h
  refine ⟨?_, ?_, ?_, ?_⟩
  · have h1 : inFlight s ≤ s.loops.length := List.length_filter_le _ _
    rw [hinv] at h1
    cases hb : s.processing
    · rw [hb] at h1
      exact le_trans h1 (by decide)
    · rw [hb] at h1
      exact h1
  · rw [hinv]
    cases s.processing <;> rfl
  · intro hp
    unfold enqueue
    rw [hp]
    simp
  · intro hp
    unfold enqueue
    rw [hp]
    simp

theorem requestQueue_single_flight_witness :
    inFlight SchedState.init ≤ 1 ∧
    SchedState.init.loops.length = (if SchedState.init.processing then 1 else 0) ∧
    (SchedState.init.processing = false →
      enqueue SchedState.init 7 = { queue := SchedState.init.queue ++ [7], processing := true,
                                    loops := SchedState.init.loops ++ [LoopPC.atTop] }) ∧
    (SchedState.init.processing = true →
      enqueue SchedState.init 7 = { SchedState.init with queue := SchedState.init.queue ++ [7] }) :=
  requestQueue_single_flight SchedState.init 7 Relation.ReflTransGen.refl

/-- C7: when no enqueued operation ever fails, the worker settles the
promises in exactly the order the operations were enqueued (FIFO), and the
queue drains to empty. -/
theorem requestQueue_fifo_completion (jobs : List Job) (fuel : Nat)
    (hok : ∀ j ∈ jobs, j.fails = 0) (hfuel : jobs.length ≤ fuel) :
    processQueue runWrapped fuel (jobs.map (fun j => (j, 0))) =
      (jobs.map (fun j => Ev.settled j.id (Except.ok j.val)), []) := by
  induction jobs generalizing fuel with
  | nil => cases fuel <;> rfl
  | cons j rest ih =>
    cases fuel with
    | zero => simp at hfuel
    | succ fuel =>
      have hj : j.fails = 0 := hok j (List.mem_cons_self _ _)
      have hja : attempt j 0 = Except.ok j.val := by
        unfold attempt
        rw [hj]
        simp
      have hrest : ∀ x ∈ rest, x.fails = 0 := fun x hx => hok x (List.mem_cons_of_mem _ hx)
      have hf : rest.length ≤ fuel := by
        simp only [List.length_cons] at hfuel
        omega
      simp only [List.map_cons, processQueue, runWrapped, hja]
      rw [ih fuel hrest hf]
      simp

def fifoJobs : List Job :=
  [{ id := 0, fails := 0, val := 10 }, { id := 1, fails := 0, val := 11 },
   { id := 2, fails := 0, val := 12 }]

theorem requestQueue_fifo_completion_witness :
    (∀ j ∈ fifoJobs, j.fails = 0) ∧ fifoJobs.length ≤ 5 ∧
    processQueue runWrapped 5 (fifoJobs.map (fun j => (j, 0))) =
      (fifoJobs.map (fun j => Ev.settled j.id (Except.ok j.val)), []) :=
  ⟨by decide, by decide, requestQueue_fifo_completion fifoJobs 5 (by decide) (by decide)⟩

/-- C8: whenever the entry at the head of the queue throws, the worker
reinserts it at the front of the queue (with one more attempt consumed) and
sleeps exactly `2 ^ queueDepth` seconds — `2 ^ queueDepth * 1000`
milliseconds — where `queueDepth` is the queue length measured after the
reinsertion; the delay is the uncapped exponential `exponentialBackoff`. -/
theorem requestQueue_backoff_on_failure (j : Job) (t : Nat) (rest : List (Job × Nat))
    (fuel : Nat) (hfail : t < j.fails) :
    processQueue runRaw (fuel + 1) ((j, t) :: rest) =
      (Ev.backoff (exponentialBackoff (((j, t + 1) :: rest).length)) ::
        (processQueue runRaw fuel ((j, t + 1) :: rest)).1,
       (processQueue runRaw fuel ((j, t + 1) :: rest)).2) ∧
    exponentialBackoff (((j, t + 1) :: rest).length) = 2 ^ (rest.length + 1) * 1000 := by
  constructor
  · have hja : attempt j t = Except.error t := by
      unfold attempt
      rw [if_pos hfail]
    simp [processQueue, runRaw, hja]
  · simp [exponentialBackoff]

theorem requestQueue_backoff_on_failure_witness :
    0 < (({ id := 3, fails := 2, val := 9 } : Job)).fails ∧
    processQueue runRaw 7 [({ id := 3, fails := 2, val := 9 }, 0), ({ id := 4, fails := 0, val := 1 }, 0)] =
      (Ev.backoff (exponentialBackoff ([(({ id := 3, fails := 2, val := 9 } : Job), 1), ({ id := 4, fails := 0, val := 1 }, 0)].length)) ::
        (processQueue runRaw 6 [({ id := 3, fails := 2, val := 9 }, 1), ({ id := 4, fails := 0, val := 1 }, 0)]).1,
       (processQueue runRaw 6 [({ id := 3, fails := 2, val := 9 }, 1), ({ id := 4, fails := 0, val := 1 }, 0)]).2) ∧
    exponentialBackoff ([(({ id := 3, fails := 2, val := 9 } : Job), 1), ({ id := 4, fails := 0, val := 1 }, 0)].length) = 2 ^ 2 * 1000 :=
  ⟨by decide, requestQueue_backoff_on_failure { id := 3, fails := 2, val := 9 } 0 [({ id := 4, fails := 0, val := 1 }, 0)] 6 (by decide)⟩

/-- Concrete operation for the C1 analysis: its underlying request fails
once and then succeeds with 42. -/
def retryJob : Job := { id := 0, fails := 1, val := 42 }

/-- C1: evaluating the worker on an operation enqueued via `add` whose
request fails once and would then succeed: the caller's promise is settled
exactly once, REJECTED with the first failure — the closure pushed by `add`
catches the exception and rejects the outer promise, so the worker loop
never observes a failure, never reinserts the entry and never retries it;
the retry-with-backoff branch of `processQueue` is unreachable for entries
produced by `add`.  The claim's promised behaviour (resolve with the
eventual success value, hiding intermediate failures) does not occur, even
though a second attempt would have succeeded. -/
theorem requestQueue_add_rejects_on_first_failure :
    processQueue runWrapped 5 [(retryJob, 0)] = ([Ev.settled 0 (Except.error 0)], []) ∧
    attempt retryJob 1 = Except.ok 42 := by
  decide

/-! ## Feed items and the cache store -/

/-- A feed item (tweet) as surfaced to the synchronizer, with the fields
`populateTimeline` and the cache helpers consume. -/
structure Tweet where
  id : String
  conversationId : String
  userId : String
  username : String
  name : String
  text : String
  timestamp : Nat
  inReplyToStatusId : Option String
  permanentUrl : String
deriving DecidableEq, Repr

/-- Values stored in the cache by the code under consideration: a single
tweet (`twitter/tweets/<id>`) or a list of tweets (timeline, mentions). -/
inductive CacheVal where
  | tweet (t : Tweet)
  | timeline (ts : List Tweet)
deriving DecidableEq, Repr

/-- A cache entry: key, value and optional absolute expiry (ms epoch). -/
structure CacheEntry where
  key : String
  value : CacheVal
  expires : Option Nat
deriving DecidableEq, Repr

/-- Modelled from the spec: the CacheStore collaborator's
`set(key, value, ttl?)` (the runtime cache manager is not under `src/`).
A write overwrites the entry at `key`, modelled by prepending: `cacheGet`
returns the most recent write. -/
def cacheSet (store : List CacheEntry) (k : String) (v : CacheVal) (e : Option Nat) :
    List CacheEntry :=
  { key := k, value := v, expires := e } :: store

/-- Modelled from the spec: the CacheStore collaborator's
`get(key) -> value | absent`; an entry whose TTL has passed at read time is
absent. -/
def cacheGet (store : List CacheEntry) (k : String) (now : Nat) : Option CacheVal :=
  match store.find? (fun c => c.key == k) with
  | none => none
  | some c =>
    match c.expires with
    | none => some c.value
    | some e => if e < now then none else some c.value

/-- `ClientBase.cacheTweet`: skip entirely when the tweet is undefined or
null, otherwise write the tweet at `twitter/tweets/<id>` with no TTL. -/
def cacheTweet (store : List CacheEntry) (tweet : Option Tweet) : List CacheEntry :=
  match tweet with
  | none => store
  | some t => cacheSet store ("twitter/tweets/" ++ t.id) (CacheVal.tweet t) none

/-- `ClientBase.cacheTimeline`: write the timeline snapshot at
`twitter/<username>/timeline` expiring at `Date.now() + 10 * 1000`. -/
def cacheTimeline (store : List CacheEntry) (username : String) (now : Nat)
    (timeline : List Tweet) : List CacheEntry :=
  cacheSet store ("twitter/" ++ username ++ "/timeline") (CacheVal.timeline timeline)
    (some (now + 10 * 1000))

/-- `ClientBase.cacheMentions`: write the mentions list at
`twitter/<username>/mentions` expiring at `Date.now() + 10 * 1000`. -/
def cacheMentions (store : List CacheEntry) (username : String) (now : Nat)
    (mentions : List Tweet) : List CacheEntry :=
  cacheSet store ("twitter/" ++ username ++ "/mentions") (CacheVal.timeline mentions)
    (some (now + 10 * 1000))

/-- `ClientBase.getCachedTimeline`: read the timeline snapshot back. -/
def getCachedTimeline (store : List CacheEntry) (username : String) (now : Nat) :
    Option (List Tweet) :=
  match cacheGet store ("twitter/" ++ username ++ "/timeline") now with
  | some (CacheVal.timeline ts) => some ts
  | _ => none

theorem cacheGet_set_self (store : List CacheEntry) (k : String) (v : CacheVal)
    (e : Option Nat) (now : Nat) :
    cacheGet (cacheSet store k v e) k now =
      (match e with
       | none => some v
       | some ex => if ex < now then none else some v) := by
  unfold cacheGet cacheSet
  rw [List.find?_cons_of_pos _ (by simp)]

theorem cacheGet_set_ne (store : List CacheEntry) (k k' : String) (v : CacheVal)
    (e : Option Nat) (now : Nat) (hk : k' ≠ k) :
    cacheGet (cacheSet store k v e) k' now = cacheGet store k' now := by
  unfold cacheGet cacheSet
  rw [List.find?_cons_of_neg _ (by simp [Ne.symm hk])]

/-- C9: the cached timeline snapshot and cached mentions list are written
with an expiry of exactly `now + 10 * 1000` milliseconds (10 seconds from
the time of writing); consequently a later read of the cached timeline —
the gate of the synchronizer's fast path — succeeds exactly when it happens
no more than 10 seconds after the write. -/
theorem cacheTimeline_mentions_expiry (store : List CacheEntry) (username : String)
    (now readTime : Nat) (timeline mentions ts : List Tweet) :
    ((cacheTimeline store username now timeline).head? =
      some { key := "twitter/" ++ username ++ "/timeline",
             value := CacheVal.timeline timeline, expires := some (now + 10 * 1000) }) ∧
    ((cacheMentions store username now mentions).head? =
      some { key := "twitter/" ++ username ++ "/mentions",
             value := CacheVal.timeline mentions, expires := some (now + 10 * 1000) }) ∧
    (getCachedTimeline (cacheTimeline store username now timeline) username readTime =
        some ts →
      readTime ≤ now + 10 * 1000 ∧ ts = timeline) ∧
    (readTime ≤ now + 10 * 1000 →
      getCachedTimeline (cacheTimeline store username now timeline) username readTime =
        some timeline) := by
  refine ⟨rfl, rfl, ?_, ?_⟩
  · intro h
    unfold getCachedTimeline at h
    rw [cacheTimeline, cacheGet_set_self] at h
    by_cases hlt : now + 10 * 1000 < readTime
    · simp [hlt] at h
    · simp [hlt] at h
      exact ⟨by omega, h.symm⟩
  · intro h
    unfold getCachedTimeline
    rw [cacheTimeline, cacheGet_set_self]
    simp [show ¬(now + 10 * 1000 < readTime) from by omega]

theorem cacheTimeline_mentions_expiry_witness :
    ((cacheTimeline [] "alice" 5000 []).head? =
      some { key := "twitter/" ++ "alice" ++ "/timeline",
             value := CacheVal.timeline [], expires := some (5000 + 10 * 1000) }) ∧
    ((cacheMentions [] "alice" 5000 []).head? =
      some { key := "twitter/" ++ "alice" ++ "/mentions",
             value := CacheVal.timeline [], expires := some (5000 + 10 * 1000) }) ∧
    (getCachedTimeline (cacheTimeline [] "alice" 5000 []) "alice" 12000 = some [] →
      12000 ≤ 5000 + 10 * 1000 ∧ ([] : List Tweet) = []) ∧
    (12000 ≤ 5000 + 10 * 1000 →
      getCachedTimeline (cacheTimeline [] "alice" 5000 []) "alice" 12000 = some []) :=
  cacheTimeline_mentions_expiry [] "alice" 5000 12000 [] [] []

/-- C10: `cacheTweet` on an undefined/null tweet returns without touching
the cache store; on a present tweet it writes (only) the key
`twitter/tweets/<id>`: every other key reads back exactly as before, and
the written key reads back as the tweet. -/
theorem cacheTweet_none_noop_frame (store : List CacheEntry) (t : Tweet) (k : String)
    (now : Nat) :
    cacheTweet store none = store ∧
    (k ≠ "twitter/tweets/" ++ t.id →
      cacheGet (cacheTweet store (some t)) k now = cacheGet store k now) ∧
    cacheGet (cacheTweet store (some t)) ("twitter/tweets/" ++ t.id) now =
      some (CacheVal.tweet t) := by
  refine ⟨rfl, ?_, ?_⟩
  · intro hk
    unfold cacheTweet
    exact cacheGet_set_ne store _ k _ _ now hk
  · unfold cacheTweet
    rw [cacheGet_set_self]

def frameTweet : Tweet :=
  { id := "99", conversationId := "c", userId := "u", username := "alice",
    name := "Alice", text := "hi", timestamp := 3, inReplyToStatusId := none,
    permanentUrl := "p" }

theorem cacheTweet_none_noop_frame_witness :
    cacheTweet [] none = [] ∧
    ("other" ≠ "twitter/tweets/" ++ frameTweet.id →
      cacheGet (cacheTweet [] (some frameTweet)) "other" 0 = cacheGet [] "other" 0) ∧
    cacheGet (cacheTweet [] (some frameTweet)) ("twitter/tweets/" ++ frameTweet.id) 0 =
      some (CacheVal.tweet frameTweet) :=
  cacheTweet_none_noop_frame [] frameTweet "other" 0

/-! ## fetchSearchTweets: timeout- and exception-safe search -/

/-- Result shape of the search call. -/
structure QueryTweetsResponse where
  tweets : List Tweet
deriving DecidableEq, Repr

/-- The delay, in milliseconds, of the timer raced against the scheduled
search call. -/
def searchTimeoutMs : Nat := 10000

/-- Abstracted outcome of racing the client's search call against the
timer: the timer fires first (resolving `{ tweets: [] }`), the call
resolves (possibly with a nullish value), or the call rejects first. -/
inductive SearchRaceOutcome where
  | timeout
  | resolved (r : Option QueryTweetsResponse)
  | threw (e : Nat)
deriving DecidableEq, Repr

/-- The awaited result of `requestQueue.add(() => Promise.race([...]))`:
fulfils with the race's value, rejects when the client call rejected. -/
def raceSearch : SearchRaceOutcome → Except Nat (Option QueryTweetsResponse)
  | SearchRaceOutcome.timeout => Except.ok (some { tweets := [] })
  | SearchRaceOutcome.resolved r => Except.ok r
  | SearchRaceOutcome.threw e => Except.error e

/-- A `try { ... } catch (error) { ... }` block over a possibly-throwing
body. -/
def tryCatchE (body : Except Nat QueryTweetsResponse)
    (handler : Nat → Except Nat QueryTweetsResponse) : Except Nat QueryTweetsResponse :=
  match body with
  | Except.ok v => Except.ok v
  | Except.error e => handler e

/-- `ClientBase.fetchSearchTweets`: the scheduled race, `result ?? empty`,
and the two nested catch-alls each returning `{ tweets: [] }`. -/
def fetchSearchTweets (o : SearchRaceOutcome) : Except Nat QueryTweetsResponse :=
  tryCatchE
    (tryCatchE
      (match raceSearch o with
       | Except.ok r => Except.ok (r.getD { tweets := [] })
       | Except.error e => Except.error e)
      (fun _ => Except.ok { tweets := [] }))
    (fun _ => Except.ok { tweets := [] })

/-- C5: `fetchSearchTweets` never rejects — its result is a fulfilled value
for every race outcome — and both on a 10-second timeout and on any
exception from the underlying call the fulfilled value is the empty result
`{ tweets: [] }`. -/
theorem fetchSearchTweets_never_rejects :
    (∀ o, (fetchSearchTweets o).isOk = true) ∧
    fetchSearchTweets SearchRaceOutcome.timeout = Except.ok { tweets := [] } ∧
    (∀ e, fetchSearchTweets (SearchRaceOutcome.threw e) = Except.ok { tweets := [] }) ∧
    searchTimeoutMs = 10000 := by
  refine ⟨?_, rfl, fun e => rfl, rfl⟩
  intro o
  cases o with
  | timeout => rfl
  | resolved r => cases r <;> rfl
  | threw e => rfl

/-! ## Durable memory store, identity derivation and populateTimeline -/

/-- Modelled from the spec: the deterministic id derivation `stringToUuid`
of the core runtime (not under `src/`).  The spec requires only that the
derivation be stable and reproducible across restarts; it is modelled as an
injective deterministic function of its input, represented by the input
string itself. -/
def stringToUuid (s : String) : String := s

/-- Message content attached to an imported feed item. -/
structure Content where
  text : String
  url : String
  source : String
  inReplyTo : Option String
deriving DecidableEq, Repr

/-- A durable memory record. -/
structure Memory where
  id : String
  userId : String
  agentId : String
  content : Content
  roomId : String
  createdAt : Nat
deriving DecidableEq, Repr

/-- Modelled from the spec: `MemoryStore.getByRoomIds(roomIds)` — all
durable records belonging to one of the given rooms. -/
def getMemoriesByRoomIds (roomIds : List String) (store : List Memory) : List Memory :=
  store.filter (fun m => roomIds.contains m.roomId)

/-- Modelled from the spec: `MemoryStore.getById(id) -> record | absent`. -/
def getMemoryById (i : String) (store : List Memory) : Option Memory :=
  store.find? (fun m => m.id == i)

/-- Modelled from the spec: `MemoryStore.createIfAbsent(record)` — "must
not error on duplicate key": creating at an already-present id is a silent
no-op; otherwise the record is appended. -/
def createMemory (m : Memory) (store : List Memory) : List Memory :=
  if store.any (fun m0 => m0.id == m.id) then store else store ++ [m]

/-- Deterministic record id: `stringToUuid(tweet.id + "-" + agentId)`. -/
def memId (agentId : String) (t : Tweet) : String :=
  stringToUuid (t.id ++ "-" ++ agentId)

/-- Deterministic room id:
`stringToUuid(tweet.conversationId + "-" + agentId)`. -/
def roomIdOf (agentId : String) (t : Tweet) : String :=
  stringToUuid (t.conversationId ++ "-" ++ agentId)

/-- The `userId` stored on the imported record: the agent itself when the
tweet's author is the profile, otherwise the author's derived id. -/
def tweetUserId (agentId profileId : String) (t : Tweet) : String :=
  if t.userId = profileId then agentId else stringToUuid t.userId

/-- The record built in the cached-timeline branch of `populateTimeline`
(note `inReplyTo` is derived with the `-agentId` suffix there). -/
def mkMemoryCached (agentId profileId : String) (t : Tweet) : Memory :=
  { id := memId agentId t,
    userId := tweetUserId agentId profileId t,
    agentId := agentId,
    content := { text := t.text, url := t.permanentUrl, source := "twitter",
                 inReplyTo := t.inReplyToStatusId.map
                   (fun r => stringToUuid (r ++ "-" ++ agentId)) },
    roomId := roomIdOf agentId t,
    createdAt := t.timestamp * 1000 }

/-- The record built in the full-resync branch of `populateTimeline`
(there `inReplyTo` is `stringToUuid(inReplyToStatusId)` without suffix). -/
def mkMemoryFull (agentId profileId : String) (t : Tweet) : Memory :=
  { id := memId agentId t,
    userId := tweetUserId agentId profileId t,
    agentId := agentId,
    content := { text := t.text, url := t.permanentUrl, source := "twitter",
                 inReplyTo := t.inReplyToStatusId.map (fun r => stringToUuid r) },
    roomId := roomIdOf agentId t,
    createdAt := t.timestamp * 1000 }

/-- Environment of `populateTimeline`: the agent/profile identities, the
`TWITTER_USERNAME` setting, and the remote fetchers (the processed home
timeline and the tweets of a mentions search), abstracted as functions of
the requested bound.  Identity/connection bookkeeping (`ensureConnection`,
`ensureUserExists`) touches only collaborator user tables, which no claim
references, and is not modelled. -/
structure PopulateEnv where
  agentId : String
  profileId : String
  twitterUsername : String
  homeTimeline : Nat → List Tweet
  searchTweets : String → Nat → List Tweet

/-- A remote feed call issued by `populateTimeline`. -/
inductive RemoteCall where
  | homeTimeline (count : Nat)
  | search (query : String) (maxTweets : Nat)
deriving DecidableEq, Repr

/-- The save loop of the cached-timeline branch: for each tweet, re-check
the record by id; if it already exists the loop BREAKS (the source logs
"Memory already exists, skipping timeline population" and executes
`break`), abandoning the remaining tweets; otherwise the record is
created. -/
def saveCachedLoop (agentId profileId : String) : List Tweet → List Memory → List Memory
  | [], store => store
  | t :: rest, store =>
    match getMemoryById (memId agentId t) store with
    | some _ => store
    | none =>
      saveCachedLoop agentId profileId rest
        (createMemory (mkMemoryCached agentId profileId t) store)

/-- The save loop of the full-resync branch: create every filtered tweet's
record (no per-item re-check, no break). -/
def saveFullLoop (agentId profileId : String) : List Tweet → List Memory → List Memory
  | [], store => store
  | t :: rest, store =>
    saveFullLoop agentId profileId rest
      (createMemory (mkMemoryFull agentId profileId t) store)

/-- The full-resync branch of `populateTimeline`: fetch the home timeline
(bound 10 when a cached timeline was present, 50 otherwise) and the 20 most
recent `@username` mentions, merge, drop the tweets whose records are
already found via the batch room query, and save the rest.  The result is
the final durable store together with the list of remote calls issued. -/
def populateFull (env : PopulateEnv) (cachePresent : Bool) (store : List Memory) :
    List Memory × List RemoteCall :=
  let timeline := env.homeTimeline (if cachePresent then 10 else 50)
  let mentions := env.searchTweets ("@" ++ env.twitterUsername) 20
  let allTweets := timeline ++ mentions
  let roomIds := allTweets.map (roomIdOf env.agentId)
  let existingMemories := getMemoriesByRoomIds roomIds store
  let existingMemoryIds := existingMemories.map (fun m => m.id)
  let tweetsToSave := allTweets.filter
    (fun t => !(existingMemoryIds.contains (memId env.agentId t)))
  (saveFullLoop env.agentId env.profileId tweetsToSave store,
   [RemoteCall.homeTimeline (if cachePresent then 10 else 50),
    RemoteCall.search ("@" ++ env.twitterUsername) 20])

/-- The cached-timeline branch: batch-query the rooms of the cached tweets;
if some cached tweet already has a record (`someCachedTweetsExist`), save
the cached tweets whose records were not found and return with no remote
call; otherwise fall through to a full resync (with the warm bound 10). -/
def populateCached (env : PopulateEnv) (cached : List Tweet) (store : List Memory) :
    List Memory × List RemoteCall :=
  let roomIds := cached.map (roomIdOf env.agentId)
  let existingMemories := getMemoriesByRoomIds roomIds store
  let existingMemoryIds := existingMemories.map (fun m => m.id)
  if cached.any (fun t => existingMemoryIds.contains (memId env.agentId t)) then
    (saveCachedLoop env.agentId env.profileId
      (cached.filter (fun t => !(existingMemoryIds.contains (memId env.agentId t)))) store,
     [])
  else
    populateFull env true store

/-- `ClientBase.populateTimeline`, as a function of the cached timeline
read (present or absent), the remote fetchers and the current durable
store. -/
def populateTimeline (env : PopulateEnv) (cachedTimeline : Option (List Tweet))
    (store : List Memory) : List Memory × List RemoteCall :=
  match cachedTimeline with
  | some cached => populateCached env cached store
  | none => populateFull env false store

theorem mem_createMemory (m x : Memory) (store : List Memory) (hx : x ∈ store) :
    x ∈ createMemory m store := by
  unfold createMemory
  split
  · exact hx
  · exact List.mem_append_left _ hx

theorem createMemory_mem_cases (m x : Memory) (store : List Memory)
    (hx : x ∈ createMemory m store) : x ∈ store ∨ x = m := by
  unfold createMemory at hx
  split at hx
  · exact Or.inl hx
  · rcases List.mem_append.mp hx with h | h
    · exact Or.inl h
    · simp at h
      exact Or.inr h

theorem createMemory_of_hasId (m : Memory) (store : List Memory)
    (h : ∃ x ∈ store, x.id = m.id) : createMemory m store = store := by
  unfold createMemory
  rw [if_pos]
  rw [List.any_eq_true]
  obtain ⟨x, hx, hxi⟩ := h
  exact ⟨x, hx, by rw [beq_iff_eq]; exact hxi⟩

theorem createMemory_of_fresh (m : Memory) (store : List Memory)
    (h : ∀ x ∈ store, x.id ≠ m.id) : createMemory m store = store ++ [m] := by
  unfold createMemory
  rw [if_neg]
  rw [List.any_eq_true]
  rintro ⟨x, hx, hxi⟩
  rw [beq_iff_eq] at hxi
  exact h x hx hxi

theorem createMemory_id_iff (m : Memory) (store : List Memory) (i : String) :
    (∃ x ∈ createMemory m store, x.id = i) ↔ (∃ x ∈ store, x.id = i) ∨ m.id = i := by
  by_cases hc : ∃ x ∈ store, x.id = m.id
  · rw [createMemory_of_hasId m store hc]
    constructor
    · exact Or.inl
    · rintro (h | hmi)
      · exact h
      · obtain ⟨x, hx, hxi⟩ := hc
        exact ⟨x, hx, hxi.trans hmi⟩
  · push_neg at hc
    rw [createMemory_of_fresh m store hc]
    constructor
    · rintro ⟨x, hx, hxi⟩
      rcases List.mem_append.mp hx with h | h
      · exact Or.inl ⟨x, h, hxi⟩
      · simp at h
        subst h
        exact Or.inr hxi
    · rintro (⟨x, hx, hxi⟩ | hmi)
      · exact ⟨x, List.mem_append_left _ hx, hxi⟩
      · exact ⟨m, List.mem_append_right _ (by simp), hmi⟩

theorem createMemory_nodup (m : Memory) (store : List Memory)
    (h : (store.map (fun x => x.id)).Nodup) :
    ((createMemory m store).map (fun x => x.id)).Nodup := by
  by_cases hc : ∃ x ∈ store, x.id = m.id
  · rw [createMemory_of_hasId m store hc]
    exact h
  · push_neg at hc
    rw [createMemory_of_fresh m store hc, List.map_append]
    refine List.Nodup.append h (by simp) ?_
    intro i hi hi1
    simp at hi1
    obtain ⟨x, hx, hxe⟩ := List.mem_map.mp hi
    exact hc x hx (hxe.trans hi1)

theorem saveFullLoop_mem_mono (a p : String) (ts : List Tweet) (store : List Memory)
    (x : Memory) (hx : x ∈ store) : x ∈ saveFullLoop a p ts store := by
  induction ts generalizing store with
  | nil => exact hx
  | cons t rest ih => exact ih _ (mem_createMemory _ _ _ hx)

theorem saveFullLoop_id_iff (a p : String) (ts : List Tweet) (store : List Memory)
    (i : String) :
    (∃ x ∈ saveFullLoop a p ts store, x.id = i) ↔
      (∃ x ∈ store, x.id = i) ∨ ∃ t ∈ ts, memId a t = i := by
  induction ts generalizing store with
  | nil => simp [saveFullLoop]
  | cons t rest ih =>
    simp only [saveFullLoop]
    have hid : (mkMemoryFull a p t).id = memId a t := rfl
    rw [ih, createMemory_id_iff, hid, or_assoc]
    simp only [List.mem_cons, exists_eq_or_imp]

theorem saveFullLoop_nodup (a p : String) (ts : List Tweet) (store : List Memory)
    (h : (store.map (fun x => x.id)).Nodup) :
    ((saveFullLoop a p ts store).map (fun x => x.id)).Nodup := by
  induction ts generalizing store with
  | nil => exact h
  | cons t rest ih => exact ih _ (createMemory_nodup _ _ h)

theorem saveFullLoop_noop (a p : String) (ts : List Tweet) (store : List Memory)
    (h : ∀ t ∈ ts, ∃ x ∈ store, x.id = memId a t) :
    saveFullLoop a p ts store = store := by
  induction ts with
  | nil => rfl
  | cons t rest ih =>
    simp only [saveFullLoop]
    rw [createMemory_of_hasId _ _ (h t (by simp))]
    exact ih (fun t' ht' => h t' (by simp [ht']))

theorem saveFullLoop_mem_cases (a p : String) (ts : List Tweet) (store : List Memory)
    (x : Memory) (hx : x ∈ saveFullLoop a p ts store) :
    x ∈ store ∨ ∃ t ∈ ts, x = mkMemoryFull a p t := by
  induction ts generalizing store with
  | nil => exact Or.inl hx
  | cons t rest ih =>
    simp only [saveFullLoop] at hx
    rcases ih _ hx with h | h
    · rcases createMemory_mem_cases _ _ _ h with h1 | h1
      · exact Or.inl h1
      · exact Or.inr ⟨t, by simp, h1⟩
    · obtain ⟨t', ht', he⟩ := h
      exact Or.inr ⟨t', by simp [ht'], he⟩

theorem saveCachedLoop_mem_mono (a p : String) (ts : List Tweet) (store : List Memory)
    (x : Memory) (hx : x ∈ store) : x ∈ saveCachedLoop a p ts store := by
  induction ts generalizing store with
  | nil => exact hx
  | cons t rest ih =>
    simp only [saveCachedLoop]
    cases hg : getMemoryById (memId a t) store with
    | some m => exact hx
    | none => exact ih _ (mem_createMemory _ _ _ hx)

theorem saveCachedLoop_nodup (a p : String) (ts : List Tweet) (store : List Memory)
    (h : (store.map (fun x => x.id)).Nodup) :
    ((saveCachedLoop a p ts store).map (fun x => x.id)).Nodup := by
  induction ts generalizing store with
  | nil => exact h
  | cons t rest ih =>
    simp only [saveCachedLoop]
    cases hg : getMemoryById (memId a t) store with
    | some m => exact h
    | none => exact ih _ (createMemory_nodup _ _ h)

theorem saveCachedLoop_fresh (a p : String) (ts : List Tweet) (store : List Memory)
    (h1 : ∀ t ∈ ts, ∀ x ∈ store, x.id ≠ memId a t)
    (h2 : (ts.map (memId a)).Nodup) :
    saveCachedLoop a p ts store = store ++ ts.map (mkMemoryCached a p) := by
  induction ts generalizing store with
  | nil => simp only [List.map_nil, List.append_nil]; rfl
  | cons t rest ih =>
    simp only [List.map_cons, List.nodup_cons] at h2
    have hfind : getMemoryById (memId a t) store = none := by
      unfold getMemoryById
      rw [List.find?_eq_none]
      intro x hx
      simp only [beq_iff_eq]
      exact h1 t (by simp) x hx
    simp only [saveCachedLoop, hfind]
    rw [createMemory_of_fresh _ _ (fun x hx => h1 t (by simp) x hx)]
    rw [ih _ ?_ h2.2]
    · simp
    · intro t' ht' x hx
      rcases List.mem_append.mp hx with h | h
      · exact h1 t' (by simp [ht']) x h
      · simp at h
        subst h
        intro he
        have he' : memId a t = memId a t' := he
        apply h2.1
        rw [he']
        exact List.mem_map_of_mem _ ht'

theorem contains_iff_mem (l : List String) (s : String) : l.contains s = true ↔ s ∈ l :=
  List.elem_iff

theorem mem_getMemoriesByRoomIds (roomIds : List String) (store : List Memory) (x : Memory) :
    x ∈ getMemoriesByRoomIds roomIds store ↔ x ∈ store ∧ x.roomId ∈ roomIds := by
  unfold getMemoriesByRoomIds
  rw [List.mem_filter]
  constructor
  · rintro ⟨h1, h2⟩
    exact ⟨h1, (contains_iff_mem _ _).mp h2⟩
  · rintro ⟨h1, h2⟩
    exact ⟨h1, (contains_iff_mem _ _).mpr h2⟩

theorem string_append_cancel_right (x y c : String) (h : x ++ c = y ++ c) : x = y := by
  have hd : x.data ++ c.data = y.data ++ c.data := by
    rw [← String.data_append, ← String.data_append, h]
  have hxy : x.data = y.data := List.append_cancel_right hd
  cases x
  cases y
  exact congrArg String.mk hxy

theorem memId_inj (a : String) (t u : Tweet) (h : memId a t = memId a u) : t.id = u.id := by
  unfold memId stringToUuid at h
  exact string_append_cancel_right _ _ _ (string_append_cancel_right _ _ _ h)

theorem memId_nodup_of_id_nodup (a : String) (ts : List Tweet)
    (h : (ts.map (fun t => t.id)).Nodup) : (ts.map (memId a)).Nodup := by
  have he : ts.map (memId a) = (ts.map (fun t => t.id)).map (fun s => s ++ "-" ++ a) := by
    rw [List.map_map]
    rfl
  rw [he]
  refine h.map ?_
  intro x y hxy
  exact string_append_cancel_right _ _ _ (string_append_cancel_right _ _ _ hxy)

theorem populateCached_validated (env : PopulateEnv) (cached : List Tweet)
    (store : List Memory)
    (hexist : ∃ t ∈ cached, ∃ x ∈ store, x.id = memId env.agentId t)
    (hcons : ∀ x ∈ store, ∀ t ∈ cached, x.id = memId env.agentId t →
      x.roomId = roomIdOf env.agentId t)
    (hnd : (cached.map (memId env.agentId)).Nodup) :
    populateCached env cached store =
      (store ++ (cached.filter
          (fun t => !(store.any (fun x => x.id == memId env.agentId t)))).map
        (mkMemoryCached env.agentId env.profileId), []) := by
  have hpt : ∀ t ∈ cached,
      (((getMemoriesByRoomIds (cached.map (roomIdOf env.agentId)) store).map
        (fun m => m.id)).contains (memId env.agentId t))
      = store.any (fun x => x.id == memId env.agentId t) := by
    intro t ht
    refine Bool.coe_iff_coe.mp ?_
    rw [contains_iff_mem, List.any_eq_true]
    constructor
    · intro hmem
      obtain ⟨x, hx, hxid⟩ := List.mem_map.mp hmem
      have hxs := (mem_getMemoriesByRoomIds _ _ _).mp hx
      exact ⟨x, hxs.1, by rw [beq_iff_eq]; exact hxid⟩
    · rintro ⟨x, hx, hxid⟩
      rw [beq_iff_eq] at hxid
      refine List.mem_map.mpr ⟨x, ?_, hxid⟩
      refine (mem_getMemoriesByRoomIds _ _ _).mpr ⟨hx, ?_⟩
      rw [hcons x hx t ht hxid]
      exact List.mem_map_of_mem _ ht
  have hany : cached.any (fun t =>
      ((getMemoriesByRoomIds (cached.map (roomIdOf env.agentId)) store).map
        (fun m => m.id)).contains (memId env.agentId t)) = true := by
    rw [List.any_eq_true]
    obtain ⟨t0, ht0, x0, hx0, hid0⟩ := hexist
    refine ⟨t0, ht0, ?_⟩
    rw [hpt t0 ht0, List.any_eq_true]
    exact ⟨x0, hx0, by rw [beq_iff_eq]; exact hid0⟩
  have hfeq : cached.filter (fun t =>
        !(((getMemoriesByRoomIds (cached.map (roomIdOf env.agentId)) store).map
          (fun m => m.id)).contains (memId env.agentId t)))
      = cached.filter (fun t => !(store.any (fun x => x.id == memId env.agentId t))) :=
    List.filter_congr (fun t ht => by rw [hpt t ht])
  simp only [populateCached]
  rw [if_pos hany, hfeq]
  rw [saveCachedLoop_fresh]
  · intro t ht x hx
    have hf := List.mem_filter.mp ht
    have hfa : store.any (fun x => x.id == memId env.agentId t) = false := by
      cases hb : store.any (fun x => x.id == memId env.agentId t)
      · rfl
      · rw [hb] at hf
        simp at hf
    rw [List.any_eq_false] at hfa
    intro he
    exact hfa x hx (by rw [beq_iff_eq]; exact he)
  · refine hnd.sublist ?_
    exact List.Sublist.map _ (List.filter_sublist cached)

/-- C3 (amended): on the validated fast path (cached timeline present,
at least one cached item already durably stored), provided the cached items
carry pairwise-distinct ids and stored records for cached items sit in their
derived rooms, `populateTimeline` issues zero remote calls, ends with a
record for every cached item, and creates exactly one new record per cached
item not yet durably stored.  Without the distinct-id proviso the save
loop's `break` on a pre-existing record can abandon the remaining items
(see the counterexample). -/
theorem populateTimeline_fast_path_imports_missing (env : PopulateEnv)
    (cached : List Tweet) (store : List Memory)
    (hexist : ∃ t ∈ cached, ∃ x ∈ store, x.id = memId env.agentId t)
    (hcons : ∀ x ∈ store, ∀ t ∈ cached, x.id = memId env.agentId t →
      x.roomId = roomIdOf env.agentId t)
    (hnd : (cached.map (fun t => t.id)).Nodup) :
    (populateTimeline env (some cached) store).2 = [] ∧
    (∀ t ∈ cached, ∃ x ∈ (populateTimeline env (some cached) store).1,
      x.id = memId env.agentId t) ∧
    (populateTimeline env (some cached) store).1.length =
      store.length + (cached.filter
        (fun t => !(store.any (fun x => x.id == memId env.agentId t)))).length := by
  have hrun : populateTimeline env (some cached) store =
      (store ++ (cached.filter
          (fun t => !(store.any (fun x => x.id == memId env.agentId t)))).map
        (mkMemoryCached env.agentId env.profileId), []) := by
    show populateCached env cached store = _
    exact populateCached_validated env cached store hexist hcons
      (memId_nodup_of_id_nodup _ _ hnd)
  rw [hrun]
  refine ⟨rfl, ?_, by simp⟩
  intro t ht
  by_cases hs : store.any (fun x => x.id == memId env.agentId t) = true
  · rw [List.any_eq_true] at hs
    obtain ⟨x, hx, hxe⟩ := hs
    rw [beq_iff_eq] at hxe
    exact ⟨x, List.mem_append_left _ hx, hxe⟩
  · have hf : t ∈ cached.filter
        (fun t => !(store.any (fun x => x.id == memId env.agentId t))) := by
      rw [List.mem_filter]
      refine ⟨ht, ?_⟩
      cases hb : store.any (fun x => x.id == memId env.agentId t)
      · rfl
      · exact absurd hb hs
    exact ⟨mkMemoryCached env.agentId env.profileId t,
      List.mem_append_right _ (List.mem_map_of_mem _ hf), rfl⟩

/-- A cached tweet with the given id and conversation id. -/
def cexTweet (i c : String) : Tweet :=
  { id := i, conversationId := c, userId := "u", username := "un", name := "n",
    text := "x", timestamp := 1, inReplyToStatusId := none, permanentUrl := "url" }

def cexC : Tweet := cexTweet "c" "cc"

def cexA1 : Tweet := cexTweet "a" "ca1"

def cexA2 : Tweet := cexTweet "a" "ca2"

def cexB : Tweet := cexTweet "b" "cb"

/-- A cached timeline holding a duplicated item id `a` (two cached entries
with the same id), one already-stored item `c` and one unstored item `b`. -/
def cexCache : List Tweet := [cexC, cexA1, cexA2, cexB]

def cexEnv : PopulateEnv :=
  { agentId := "agent", profileId := "profile", twitterUsername := "user",
    homeTimeline := fun _ => [], searchTweets := fun _ _ => [] }

def cexStore : List Memory := [mkMemoryCached "agent" "profile" cexC]

/-- C3 counterexample: on the fast path (zero remote calls issued; the
store already holds `c`), the cached item `b` is not yet durably stored,
yet after `populateTimeline` no record with `b`'s deterministic id exists:
the save loop hit the pre-existing record created for the first copy of `a`
when it reached the second copy, and `break`ed out, skipping `b` — a
pre-existing record at an item's deterministic id IS a reason to stop. -/
theorem populateTimeline_fast_path_break_cex :
    (populateTimeline cexEnv (some cexCache) cexStore).2 = [] ∧
    cexCache.contains cexB = true ∧
    cexStore.all (fun m => m.id != memId "agent" cexB) = true ∧
    (populateTimeline cexEnv (some cexCache) cexStore).1.all
      (fun m => m.id != memId "agent" cexB) = true := by
  decide

/-- A distinct-id cached tweet for the warm-start witness. -/
def wtTweet (i : String) : Tweet :=
  { id := i, conversationId := "conv" ++ i, userId := "u" ++ i, username := "un",
    name := "n", text := "x", timestamp := 1, inReplyToStatusId := none,
    permanentUrl := "url" }

def wtEnv : PopulateEnv :=
  { agentId := "agent", profileId := "profile", twitterUsername := "user",
    homeTimeline := fun _ => [], searchTweets := fun _ _ => [] }

/-- Ten cached items with pairwise-distinct ids. -/
def wtCached : List Tweet :=
  [wtTweet "t0", wtTweet "t1", wtTweet "t2", wtTweet "t3", wtTweet "t4",
   wtTweet "t5", wtTweet "t6", wtTweet "t7", wtTweet "t8", wtTweet "t9"]

/-- Seven of the ten cached items are already durably stored. -/
def wtStore : List Memory :=
  (wtCached.take 7).map (mkMemoryCached "agent" "profile")

theorem populateTimeline_fast_path_imports_missing_witness :
    (∃ t ∈ wtCached, ∃ x ∈ wtStore, x.id = memId wtEnv.agentId t) ∧
    (∀ x ∈ wtStore, ∀ t ∈ wtCached, x.id = memId wtEnv.agentId t →
      x.roomId = roomIdOf wtEnv.agentId t) ∧
    (wtCached.map (fun t => t.id)).Nodup ∧
    ((populateTimeline wtEnv (some wtCached) wtStore).2 = [] ∧
      (∀ t ∈ wtCached, ∃ x ∈ (populateTimeline wtEnv (some wtCached) wtStore).1,
        x.id = memId wtEnv.agentId t) ∧
      (populateTimeline wtEnv (some wtCached) wtStore).1.length =
        wtStore.length + (wtCached.filter
          (fun t => !(wtStore.any (fun x => x.id == memId wtEnv.agentId t)))).length) ∧
    (populateTimeline wtEnv (some wtCached) wtStore).1.length = 10 ∧
    wtStore.length = 7 :=
  ⟨by decide, by decide, by decide,
    populateTimeline_fast_path_imports_missing wtEnv wtCached wtStore
      (by decide) (by decide) (by decide),
    by decide, by decide⟩

theorem populateTimeline_nodup (env : PopulateEnv) (ct : Option (List Tweet))
    (store : List Memory) (h : (store.map (fun x => x.id)).Nodup) :
    ((populateTimeline env ct store).1.map (fun x => x.id)).Nodup := by
  cases ct with
  | none =>
    simp only [populateTimeline, populateFull]
    exact saveFullLoop_nodup _ _ _ _ h
  | some cached =>
    simp only [populateTimeline, populateCached]
    split
    · exact saveCachedLoop_nodup _ _ _ _ h
    · simp only [populateFull]
      exact saveFullLoop_nodup _ _ _ _ h

theorem populateFull_idem (env : PopulateEnv) (flag : Bool) (store : List Memory) :
    (populateFull env flag ((populateFull env flag store).1)).1 =
      (populateFull env flag store).1 := by
  simp only [populateFull]
  generalize env.homeTimeline (if flag then 10 else 50) ++
    env.searchTweets ("@" ++ env.twitterUsername) 20 = allT
  apply saveFullLoop_noop
  intro t ht
  have hall : t ∈ allT := (List.mem_filter.mp ht).1
  refine (saveFullLoop_id_iff _ _ _ _ _).mpr ?_
  by_cases hp : (((getMemoriesByRoomIds (allT.map (roomIdOf env.agentId)) store).map
      (fun m => m.id)).contains (memId env.agentId t)) = true
  · left
    rw [contains_iff_mem] at hp
    obtain ⟨x, hx, hxe⟩ := List.mem_map.mp hp
    exact ⟨x, ((mem_getMemoriesByRoomIds _ _ _).mp hx).1, hxe⟩
  · right
    refine ⟨t, ?_, rfl⟩
    rw [List.mem_filter]
    refine ⟨hall, ?_⟩
    cases hb : (((getMemoriesByRoomIds (allT.map (roomIdOf env.agentId)) store).map
        (fun m => m.id)).contains (memId env.agentId t))
    · rfl
    · exact absurd hb hp

theorem populateCached_idem (env : PopulateEnv) (cached : List Tweet)
    (store : List Memory)
    (hexist : ∃ t ∈ cached, ∃ x ∈ store, x.id = memId env.agentId t)
    (hcons : ∀ x ∈ store, ∀ t ∈ cached, x.id = memId env.agentId t →
      x.roomId = roomIdOf env.agentId t)
    (hnd : (cached.map (memId env.agentId)).Nodup) :
    (populateCached env cached ((populateCached env cached store).1)).1 =
      (populateCached env cached store).1 := by
  have h1 := populateCached_validated env cached store hexist hcons hnd
  have hmem1 : ∀ x ∈ (populateCached env cached store).1,
      x ∈ store ∨ ∃ t ∈ cached, x = mkMemoryCached env.agentId env.profileId t := by
    intro x hx
    rw [h1] at hx
    rcases List.mem_append.mp hx with h | h
    · exact Or.inl h
    · obtain ⟨t, ht, he⟩ := List.mem_map.mp h
      exact Or.inr ⟨t, (List.mem_filter.mp ht).1, he.symm⟩
  have hexist1 : ∃ t ∈ cached, ∃ x ∈ (populateCached env cached store).1,
      x.id = memId env.agentId t := by
    obtain ⟨t0, ht0, x0, hx0, hid0⟩ := hexist
    refine ⟨t0, ht0, x0, ?_, hid0⟩
    rw [h1]
    exact List.mem_append_left _ hx0
  have hcons1 : ∀ x ∈ (populateCached env cached store).1, ∀ t ∈ cached,
      x.id = memId env.agentId t → x.roomId = roomIdOf env.agentId t := by
    intro x hx t ht hid
    rcases hmem1 x hx with h | ⟨t', ht', he⟩
    · exact hcons x h t ht hid
    · subst he
      have hte : t' = t :=
        List.inj_on_of_nodup_map hnd ht' ht hid
      rw [hte]
      rfl
  have h2 := populateCached_validated env cached
    ((populateCached env cached store).1) hexist1 hcons1 hnd
  have hnil : cached.filter (fun t =>
      !((populateCached env cached store).1.any
        (fun x => x.id == memId env.agentId t))) = [] := by
    rw [List.filter_eq_nil_iff]
    intro t ht
    have hany : (populateCached env cached store).1.any
        (fun x => x.id == memId env.agentId t) = true := by
      rw [List.any_eq_true]
      by_cases hb : store.any (fun x => x.id == memId env.agentId t) = true
      · rw [List.any_eq_true] at hb
        obtain ⟨x, hx, hxe⟩ := hb
        refine ⟨x, ?_, hxe⟩
        rw [h1]
        exact List.mem_append_left _ hx
      · have hf : t ∈ cached.filter
            (fun t => !(store.any (fun x => x.id == memId env.agentId t))) := by
          rw [List.mem_filter]
          refine ⟨ht, ?_⟩
          cases hc : store.any (fun x => x.id == memId env.agentId t)
          · rfl
          · exact absurd hc hb
        refine ⟨mkMemoryCached env.agentId env.profileId t, ?_,
          by rw [beq_iff_eq]; rfl⟩
        rw [h1]
        exact List.mem_append_right _ (List.mem_map_of_mem _ hf)
    rw [hany]
    decide
  rw [h2, hnil]
  simp

/-- C2 (amended): the durable store never acquires two records with the
same deterministic id — any `populateTimeline` run preserves id-uniqueness
of the store (at most one record per `(feedItem.id, agentId)` pair, ever).
Re-running against identical remote and cache state creates zero additional
records when the cache is absent (full resync is idempotent,
unconditionally), and when the cache is present, validated by an
already-stored item, duplicate-free in item ids and room-consistent; with
duplicate cached ids the first run's save loop can stop early and the
second run then imports the items it skipped (see the counterexample). -/
theorem populateTimeline_at_most_once_and_idempotent (env : PopulateEnv)
    (cachedTimeline : Option (List Tweet)) (store : List Memory)
    (hnodup : (store.map (fun x => x.id)).Nodup) :
    ((populateTimeline env cachedTimeline store).1.map (fun x => x.id)).Nodup ∧
    ((populateTimeline env none ((populateTimeline env none store).1)).1 =
      (populateTimeline env none store).1) ∧
    (∀ cached,
      (∃ t ∈ cached, ∃ x ∈ store, x.id = memId env.agentId t) →
      ((cached.map (fun t => t.id)).Nodup) →
      (∀ x ∈ store, ∀ t ∈ cached, x.id = memId env.agentId t →
        x.roomId = roomIdOf env.agentId t) →
      (populateTimeline env (some cached) ((populateTimeline env (some cached) store).1)).1 =
        (populateTimeline env (some cached) store).1) := by
  refine ⟨populateTimeline_nodup env cachedTimeline store hnodup, ?_, ?_⟩
  · show (populateFull env false ((populateFull env false store).1)).1 =
      (populateFull env false store).1
    exact populateFull_idem env false store
  · intro cached hexist hnd hcons
    show (populateCached env cached ((populateCached env cached store).1)).1 =
      (populateCached env cached store).1
    exact populateCached_idem env cached store hexist hcons
      (memId_nodup_of_id_nodup _ _ hnd)

/-- C2 counterexample: with the duplicated-id cache `cexCache` and the
store already holding `c`, a second `populateTimeline` run against the
IDENTICAL cached timeline, remote state and evolved store creates one
additional durable record (the first run `break`ed before importing `b`;
the second run imports it): record count grows from 2 to 3. -/
theorem populateTimeline_second_run_growth_cex :
    (populateTimeline cexEnv (some cexCache)
        (populateTimeline cexEnv (some cexCache) cexStore).1).1.length =
      (populateTimeline cexEnv (some cexCache) cexStore).1.length + 1 := by
  decide

theorem populateTimeline_at_most_once_and_idempotent_witness :
    (wtStore.map (fun x => x.id)).Nodup ∧
    (((populateTimeline wtEnv (some wtCached) wtStore).1.map (fun x => x.id)).Nodup ∧
      ((populateTimeline wtEnv none ((populateTimeline wtEnv none wtStore).1)).1 =
        (populateTimeline wtEnv none wtStore).1) ∧
      (∀ cached,
        (∃ t ∈ cached, ∃ x ∈ wtStore, x.id = memId wtEnv.agentId t) →
        ((cached.map (fun t => t.id)).Nodup) →
        (∀ x ∈ wtStore, ∀ t ∈ cached, x.id = memId wtEnv.agentId t →
          x.roomId = roomIdOf wtEnv.agentId t) →
        (populateTimeline wtEnv (some cached)
            ((populateTimeline wtEnv (some cached) wtStore).1)).1 =
          (populateTimeline wtEnv (some cached) wtStore).1)) :=
  ⟨by decide,
    populateTimeline_at_most_once_and_idempotent wtEnv (some wtCached) wtStore (by decide)⟩

/-- C6: full resync on an empty cache and empty store fetches the home
timeline with the cold-start bound 50 (warm refresh uses 10, last
conjunct) and a mentions search for `@username` with fixed limit 20, and
the durable store ends with exactly one record per unique deterministic id
of the merged list: every merged item has a record, every record comes from
a merged item, ids are pairwise distinct, and the record count is the
number of distinct merged ids (so 50 timeline items plus 20 mentions with 5
overlapping ids yield 65 records). -/
theorem populateTimeline_cold_start (env : PopulateEnv) (T M : List Tweet)
    (hT : env.homeTimeline 50 = T)
    (hM : env.searchTweets ("@" ++ env.twitterUsername) 20 = M) :
    (populateTimeline env none []).2 =
      [RemoteCall.homeTimeline 50,
       RemoteCall.search ("@" ++ env.twitterUsername) 20] ∧
    (∀ t ∈ T ++ M, ∃ x ∈ (populateTimeline env none []).1,
      x.id = memId env.agentId t) ∧
    (∀ x ∈ (populateTimeline env none []).1, ∃ t ∈ T ++ M,
      x.id = memId env.agentId t) ∧
    ((populateTimeline env none []).1.map (fun x => x.id)).Nodup ∧
    (populateTimeline env none []).1.length =
      ((T ++ M).map (memId env.agentId)).toFinset.card ∧
    (∀ cached store',
      (∀ t ∈ cached, ∀ x ∈ store', x.id ≠ memId env.agentId t) →
      (populateTimeline env (some cached) store').2 =
        [RemoteCall.homeTimeline 10,
         RemoteCall.search ("@" ++ env.twitterUsername) 20]) := by
  have hfilter : ∀ (allT : List Tweet), allT.filter (fun t =>
      !(((getMemoriesByRoomIds (allT.map (roomIdOf env.agentId)) []).map
        (fun m => m.id)).contains (memId env.agentId t))) = allT := by
    intro allT
    apply List.filter_eq_self.mpr
    intro t ht
    rfl
  have hres : (populateTimeline env none []).1 =
      saveFullLoop env.agentId env.profileId (T ++ M) [] := by
    simp only [populateTimeline, populateFull]
    simp only [Bool.false_eq_true, if_false, hT, hM]
    rw [hfilter]
  refine ⟨?_, ?_, ?_, ?_, ?_, ?_⟩
  · simp only [populateTimeline, populateFull]
    simp
  · intro t ht
    rw [hres]
    exact (saveFullLoop_id_iff _ _ _ _ _).mpr (Or.inr ⟨t, ht, rfl⟩)
  · intro x hx
    rw [hres] at hx
    rcases saveFullLoop_mem_cases _ _ _ _ _ hx with h | ⟨t, ht, he⟩
    · simp at h
    · exact ⟨t, ht, by rw [he]; rfl⟩
  · rw [hres]
    exact saveFullLoop_nodup _ _ _ _ (by simp)
  · have hnd : ((populateTimeline env none []).1.map (fun x => x.id)).Nodup := by
      rw [hres]
      exact saveFullLoop_nodup _ _ _ _ (by simp)
    have hset : ((populateTimeline env none []).1.map (fun x => x.id)).toFinset =
        ((T ++ M).map (memId env.agentId)).toFinset := by
      apply Finset.ext
      intro i
      rw [List.mem_toFinset, List.mem_toFinset, List.mem_map, List.mem_map]
      rw [hres]
      constructor
      · rintro ⟨x, hx, hxe⟩
        rcases saveFullLoop_mem_cases _ _ _ _ _ hx with h | ⟨t, ht, he⟩
        · simp at h
        · refine ⟨t, ht, ?_⟩
          rw [← hxe, he]
          rfl
      · rintro ⟨t, ht, hte⟩
        obtain ⟨x, hx, hxe⟩ :=
          (saveFullLoop_id_iff env.agentId env.profileId (T ++ M) [] i).mpr
            (Or.inr ⟨t, ht, hte⟩)
        exact ⟨x, hx, hxe⟩
    calc (populateTimeline env none []).1.length
        = ((populateTimeline env none []).1.map (fun x => x.id)).length := by
          rw [List.length_map]
      _ = ((populateTimeline env none []).1.map (fun x => x.id)).toFinset.card :=
          (List.toFinset_card_of_nodup hnd).symm
      _ = ((T ++ M).map (memId env.agentId)).toFinset.card := by rw [hset]
  · intro cached store' hfresh
    have hno : cached.any (fun t =>
        ((getMemoriesByRoomIds (cached.map (roomIdOf env.agentId)) store').map
          (fun m => m.id)).contains (memId env.agentId t)) = false := by
      cases hb : cached.any (fun t =>
          ((getMemoriesByRoomIds (cached.map (roomIdOf env.agentId)) store').map
            (fun m => m.id)).contains (memId env.agentId t))
      · rfl
      · rw [List.any_eq_true] at hb
        obtain ⟨t, ht, hc⟩ := hb
        rw [contains_iff_mem] at hc
        obtain ⟨x, hx, hxe⟩ := List.mem_map.mp hc
        have hxs := ((mem_getMemoriesByRoomIds _ _ _).mp hx).1
        exact absurd hxe (hfresh t ht x hxs)
    show (populateCached env cached store').2 = _
    simp only [populateCached]
    rw [if_neg (by rw [hno]; decide)]
    simp only [populateFull]
    simp

set_option maxRecDepth 8000

/-- A cold-start timeline item with a numbered id. -/
def coldTweet (i : Nat) : Tweet :=
  { id := "t" ++ toString i, conversationId := "c" ++ toString i, userId := "u",
    username := "un", name := "n", text := "x", timestamp := 1,
    inReplyToStatusId := none, permanentUrl := "url" }

/-- Fifty remote timeline items `t0 .. t49`. -/
def coldT : List Tweet := (List.range 50).map coldTweet

/-- Twenty mention items `t45 .. t64`, overlapping the timeline in five
ids. -/
def coldM : List Tweet := (List.range 20).map (fun i => coldTweet (45 + i))

def coldEnv : PopulateEnv :=
  { agentId := "agent", profileId := "profile", twitterUsername := "user",
    homeTimeline := fun _ => coldT, searchTweets := fun _ _ => coldM }

theorem populateTimeline_cold_start_witness :
    coldEnv.homeTimeline 50 = coldT ∧
    coldEnv.searchTweets ("@" ++ coldEnv.twitterUsername) 20 = coldM ∧
    ((populateTimeline coldEnv none []).2 =
        [RemoteCall.homeTimeline 50,
         RemoteCall.search ("@" ++ coldEnv.twitterUsername) 20] ∧
      (∀ t ∈ coldT ++ coldM, ∃ x ∈ (populateTimeline coldEnv none []).1,
        x.id = memId coldEnv.agentId t) ∧
      (∀ x ∈ (populateTimeline coldEnv none []).1, ∃ t ∈ coldT ++ coldM,
        x.id = memId coldEnv.agentId t) ∧
      ((populateTimeline coldEnv none []).1.map (fun x => x.id)).Nodup ∧
      (populateTimeline coldEnv none []).1.length =
        ((coldT ++ coldM).map (memId coldEnv.agentId)).toFinset.card ∧
      (∀ cached store',
        (∀ t ∈ cached, ∀ x ∈ store', x.id ≠ memId coldEnv.agentId t) →
        (populateTimeline coldEnv (some cached) store').2 =
          [RemoteCall.homeTimeline 10,
           RemoteCall.search ("@" ++ coldEnv.twitterUsername) 20])) ∧
    (populateTimeline coldEnv none []).1.length = 65 :=
  ⟨rfl, rfl, populateTimeline_cold_start coldEnv coldT coldM rfl rfl, by decide⟩
